import Mathlib

/-!
Verification of the UVM core (`uvm_core.py`): instruction codec
(`Command.to_binary` / `Command.from_binary`), program loading
(`VirtualMachine.load_program`), execution (`execute_command`,
`execute_step`, `run`) and memory dumping (`dump_memory`).

The Python source is embedded shallowly:
* Python `bytes` values are `List Nat` (each element a byte value);
* Python `int` register/memory cells are `Int` (arbitrary precision, signed);
* Python exceptions are modelled with `Except PyErr`; `ValueError`,
  `struct.error` and `IndexError` are the three exception classes the
  reachable code can raise, and they are distinct constructors;
* mutation of `self` becomes explicit state passing on `VirtualMachine`.
-/

deriving instance DecidableEq for Except

/-- Python exception classes reachable in `uvm_core.py`:
`ValueError` (decode/load failures, negative shift count),
`struct.error` (raised by `struct.pack` on out-of-range values) and
`IndexError` (list index out of range). -/
inductive PyErr where
  | valueError : PyErr
  | structError : PyErr
  | indexError : PyErr
deriving DecidableEq, Repr

/-- The opcode enumeration `Opcode` of `uvm_core.py` (class Opcode(Enum)). -/
inductive Opcode where
  | LOAD_CONST : Opcode
  | READ_MEM : Opcode
  | WRITE_MEM : Opcode
  | SHR : Opcode
deriving DecidableEq, Repr

/-- `Opcode.value`: the numeric enum value of each opcode. -/
def Opcode.value : Opcode → Nat
  | .LOAD_CONST => 44
  | .READ_MEM => 120
  | .WRITE_MEM => 34
  | .SHR => 37

/-- The `@dataclass Command`: opcode, operand list `args`, and the
`raw_bytes` field (default `b""`, written `[]` here).  Dataclass equality
compares all three fields, which `DecidableEq` mirrors. -/
structure Command where
  opcode : Opcode
  args : List Int
  raw_bytes : List Nat
deriving DecidableEq, Repr

/-- Little-endian byte list of `value`, exactly `n` bytes, as produced by
`struct.pack` for an in-range value. -/
def natToLE : Nat → Nat → List Nat
  | 0, _ => []
  | n + 1, v => v % 256 :: natToLE n (v / 256)

/-- `int.from_bytes(bs, 'little')`. -/
def fromLEBytes : List Nat → Nat
  | [] => 0
  | b :: bs => b + 256 * fromLEBytes bs

/-- `struct.pack` with an unsigned format of `nbytes` bytes: yields exactly
`nbytes` little-endian bytes, or raises `struct.error` when the value does
not fit (Python: "argument out of range"). -/
def structPack (value nbytes : Nat) : Except PyErr (List Nat) :=
  if value < 2 ^ (8 * nbytes) then .ok (natToLE nbytes value) else .error .structError

/-- `bytes.ljust(n, b'\x00')`: pad on the right with zero bytes up to length `n`. -/
def ljust (l : List Nat) (n : Nat) : List Nat :=
  l ++ List.replicate (n - l.length) 0

/-- `Command.to_binary` of `uvm_core.py`.

Each branch unpacks `self.args` into two variables (a Python unpacking of a
list whose length is not 2 raises `ValueError`), computes
`value = (A << 12) | (B << 7) | self.opcode.value` and returns
`struct.pack(fmt, value)[:k]`.  The formats are `'<I'` (4 bytes, < 2^32) for
LOAD_CONST, `'<H'` (2 bytes, < 2^16) for READ_MEM/WRITE_MEM and `'<Q'`
(8 bytes, < 2^64) for SHR; the slice `[:k]` (k = 5/3/3/6) can only shorten,
never lengthen.  In Python, `value` is negative exactly when one of the two
unpacked arguments is negative (bitwise or of a negative int is negative),
and `struct.pack` with an unsigned format raises `struct.error` on a
negative value; for non-negative arguments `value` is the natural-number
shift/or computed below. -/
def Command.to_binary (c : Command) : Except PyErr (List Nat) :=
  match c.opcode, c.args with
  | .LOAD_CONST, [reg, const] =>
      if reg < 0 ∨ const < 0 then .error .structError
      else
        (structPack ((const.toNat <<< 12) ||| (reg.toNat <<< 7) ||| 44) 4).map
          (fun l => l.take 5)
  | .READ_MEM, [src_reg, dst_reg] =>
      if src_reg < 0 ∨ dst_reg < 0 then .error .structError
      else
        (structPack ((dst_reg.toNat <<< 12) ||| (src_reg.toNat <<< 7) ||| 120) 2).map
          (fun l => l.take 3)
  | .WRITE_MEM, [src_reg, addr_reg] =>
      if src_reg < 0 ∨ addr_reg < 0 then .error .structError
      else
        (structPack ((addr_reg.toNat <<< 12) ||| (src_reg.toNat <<< 7) ||| 34) 2).map
          (fun l => l.take 3)
  | .SHR, [reg, mem_addr] =>
      if reg < 0 ∨ mem_addr < 0 then .error .structError
      else
        (structPack ((mem_addr.toNat <<< 12) ||| (reg.toNat <<< 7) ||| 37) 8).map
          (fun l => l.take 6)
  | _, _ => .error .valueError

/-- `Command.from_binary` of `uvm_core.py`: raises `ValueError` on empty
input, reads `binary[0] & 0x7F` as the opcode code, pads the input on the
right with zeros up to the opcode's width when shorter, rebuilds the
little-endian integer from the first width bytes, extracts the fields by
shift/mask, and raises `ValueError` on an unrecognized code. -/
def Command.from_binary (binary : List Nat) : Except PyErr Command :=
  match binary with
  | [] => .error .valueError
  | b0 :: _ =>
    let opcode_val := b0 &&& 0x7F
    if opcode_val = 44 then
      let bin := if binary.length < 5 then ljust binary 5 else binary
      let value := fromLEBytes (bin.take 5)
      let const := (value >>> 12) &&& 0xFFFFFF
      let reg := (value >>> 7) &&& 0x1F
      .ok ⟨.LOAD_CONST, [(reg : Int), (const : Int)], bin.take 5⟩
    else if opcode_val = 120 then
      let bin := if binary.length < 3 then ljust binary 3 else binary
      let value := fromLEBytes (bin.take 3)
      let dst_reg := (value >>> 12) &&& 0x1F
      let src_reg := (value >>> 7) &&& 0x1F
      .ok ⟨.READ_MEM, [(src_reg : Int), (dst_reg : Int)], bin.take 3⟩
    else if opcode_val = 34 then
      let bin := if binary.length < 3 then ljust binary 3 else binary
      let value := fromLEBytes (bin.take 3)
      let addr_reg := (value >>> 12) &&& 0x1F
      let src_reg := (value >>> 7) &&& 0x1F
      .ok ⟨.WRITE_MEM, [(src_reg : Int), (addr_reg : Int)], bin.take 3⟩
    else if opcode_val = 37 then
      let bin := if binary.length < 6 then ljust binary 6 else binary
      let value := fromLEBytes (bin.take 6)
      let mem_addr := (value >>> 12) &&& 0x3FFFFFFF
      let reg := (value >>> 7) &&& 0x1F
      .ok ⟨.SHR, [(reg : Int), (mem_addr : Int)], bin.take 6⟩
    else .error .valueError

/-- The mutable state of `class VirtualMachine`: 32 registers, a data
memory, the loaded program and the program counter `pc`. -/
structure VirtualMachine where
  registers : List Int
  data_memory : List Int
  program : List Command
  pc : Nat
deriving DecidableEq, Repr

/-- `VirtualMachine.__init__(data_mem_size)`: 32 zero registers, a zeroed
memory of the given size (default 65536 at call sites), empty program,
`pc = 0`. -/
def initVM (data_mem_size : Nat) : VirtualMachine :=
  ⟨List.replicate 32 0, List.replicate data_mem_size 0, [], 0⟩

/-- Python list indexing: an index `0 ≤ i < len` is used as is; a negative
index `-len ≤ i < 0` wraps to `len + i`; anything else raises `IndexError`.
Returns the effective non-negative position. -/
def pyIdx (len : Nat) (i : Int) : Except PyErr Nat :=
  if 0 ≤ i then
    if i < (len : Int) then .ok i.toNat else .error .indexError
  else
    if -i ≤ (len : Int) then .ok (len - (-i).toNat) else .error .indexError

/-- Python `xs[i]` on a list. -/
def pyGet (xs : List Int) (i : Int) : Except PyErr Int :=
  (pyIdx xs.length i).map (fun k => xs.getD k 0)

/-- Python `xs[i] = v` on a list (a store to an out-of-range index raises
`IndexError` just like a read). -/
def pySet (xs : List Int) (i : Int) (v : Int) : Except PyErr (List Int) :=
  (pyIdx xs.length i).map (fun k => xs.set k v)

/-- Python `x >> s` on ints: raises `ValueError` on a negative shift count,
otherwise floor-divides by `2 ^ s` (Python's right shift on arbitrary ints
is the floor of division by the power of two). -/
def pyShiftRight (x s : Int) : Except PyErr Int :=
  if s < 0 then .error .valueError else .ok (Int.fdiv x (2 ^ s.toNat))

/-- `VirtualMachine.execute_command` of `uvm_core.py`, with the source's
evaluation order: every read happens before the branch's single store, and
an unpacking of an `args` list whose length is not 2 raises `ValueError`. -/
def VirtualMachine.execute_command (vm : VirtualMachine) (cmd : Command) :
    Except PyErr VirtualMachine :=
  match cmd.opcode, cmd.args with
  | .LOAD_CONST, [reg, const] =>
      match pySet vm.registers reg const with
      | .error e => .error e
      | .ok regs => .ok { vm with registers := regs }
  | .READ_MEM, [src_reg, dst_reg] =>
      match pyGet vm.registers src_reg with
      | .error e => .error e
      | .ok mem_addr =>
        match pyGet vm.data_memory mem_addr with
        | .error e => .error e
        | .ok v =>
          match pySet vm.registers dst_reg v with
          | .error e => .error e
          | .ok regs => .ok { vm with registers := regs }
  | .WRITE_MEM, [src_reg, addr_reg] =>
      match pyGet vm.registers addr_reg with
      | .error e => .error e
      | .ok mem_addr =>
        match pyGet vm.registers src_reg with
        | .error e => .error e
        | .ok v =>
          match pySet vm.data_memory mem_addr v with
          | .error e => .error e
          | .ok mem => .ok { vm with data_memory := mem }
  | .SHR, [reg, mem_addr] =>
      match pyGet vm.data_memory mem_addr with
      | .error e => .error e
      | .ok shift_amount =>
        match pyGet vm.registers reg with
        | .error e => .error e
        | .ok x =>
          match pyShiftRight x shift_amount with
          | .error e => .error e
          | .ok r =>
            match pySet vm.registers reg r with
            | .error e => .error e
            | .ok regs => .ok { vm with registers := regs }
  | _, _ => .error .valueError

/-- A placeholder `Command` for `List.getD`; `execute_step` only reads
`vm.program` at positions `< vm.program.length`, so it is never seen. -/
def cmdDefault : Command := ⟨.LOAD_CONST, [], []⟩

/-- `VirtualMachine.execute_step`: returns `false` without touching the
state when `pc ≥ len(program)`; otherwise executes `program[pc]` (an
exception from `execute_command` propagates before `pc` is incremented),
then increments `pc` and returns `true`. -/
def VirtualMachine.execute_step (vm : VirtualMachine) :
    Except PyErr (VirtualMachine × Bool) :=
  if vm.program.length ≤ vm.pc then .ok (vm, false)
  else
    match vm.execute_command (vm.program.getD vm.pc cmdDefault) with
    | .error e => .error e
    | .ok vm1 => .ok ({ vm1 with pc := vm1.pc + 1 }, true)

/-- The loop of `VirtualMachine.run`:
`steps = 0; while self.execute_step() and steps < max_steps: steps += 1`.
`remaining` stands for `max_steps - steps`, so the continuation test
`steps < max_steps` is `remaining ≠ 0` and the body `steps += 1` is
`remaining - 1`.  Python's short-circuit `and` calls `execute_step` first;
when it returns `False` the loop exits without consulting `steps`. -/
def runLoop (vm : VirtualMachine) : Nat → Except PyErr VirtualMachine
  | 0 =>
    match vm.execute_step with
    | .error e => .error e
    | .ok (vm1, _) => .ok vm1
  | r + 1 =>
    match vm.execute_step with
    | .error e => .error e
    | .ok (vm1, false) => .ok vm1
    | .ok (vm1, true) => runLoop vm1 r

/-- `VirtualMachine.run(max_steps)` (default `max_steps = 10000` at call
sites). -/
def VirtualMachine.run (vm : VirtualMachine) (max_steps : Nat) :
    Except PyErr VirtualMachine :=
  runLoop vm max_steps

/-- The per-opcode record length table of `load_program` (`cmd_len`),
keyed by `first_byte & 0x7F`; `none` is the "Unknown opcode in binary"
`ValueError`. -/
def cmdLen (opcode_val : Nat) : Option Nat :=
  if opcode_val = 44 then some 5
  else if opcode_val = 120 ∨ opcode_val = 34 then some 3
  else if opcode_val = 37 then some 6
  else none

/-- The scanning loop of `VirtualMachine.load_program`: from each offset it
reads the first byte, looks up the record length, slices that many bytes
(padding with zeros when the stream ends early), decodes them with
`Command.from_binary` and appends; the scan stops at the end of the input
or, with a `ValueError`, at an unrecognized opcode code.  The result is the
list of commands appended before the loop finished plus the error, if any
(`self.program` keeps those commands when the loop raises). -/
def loadScan : List Nat → List Command × Option PyErr
  | [] => ([], none)
  | b :: rest =>
    match h : cmdLen (b &&& 0x7F) with
    | none => ([], some .valueError)
    | some n =>
      let chunk0 := (b :: rest).take n
      let chunk := if chunk0.length < n then ljust chunk0 n else chunk0
      match Command.from_binary chunk with
      | .error e => ([], some e)
      | .ok cmd =>
        match loadScan ((b :: rest).drop n) with
        | (cs, e) => (cmd :: cs, e)
  termination_by bin => bin.length
  decreasing_by
    simp only [List.length_drop]
    have hn : 0 < n := by
      unfold cmdLen at h
      repeat' split at h
      all_goals (cases h <;> omega)
    simp only [List.length_cons]
    omega

/-- `VirtualMachine.load_program(binary_data)`: clears `self.program`, then
runs the scan; the machine's program afterwards is whatever the scan
appended (even when the scan raised), and the raised exception, if any, is
returned alongside. -/
def VirtualMachine.load_program (vm : VirtualMachine) (binary_data : List Nat) :
    VirtualMachine × Option PyErr :=
  match loadScan binary_data with
  | (cs, e) => ({ vm with program := cs }, e)

/-- The loop body of `VirtualMachine.dump_memory`: reads `mem[addr]` for
each address of the (already clamped) range, in order. -/
def dumpLoop (mem : List Int) : List Nat → Except PyErr (List (Nat × Int))
  | [] => .ok []
  | a :: rest =>
    match pyGet mem (a : Int) with
    | .error e => .error e
    | .ok v =>
      match dumpLoop mem rest with
      | .error e => .error e
      | .ok l => .ok ((a, v) :: l)

/-- `VirtualMachine.dump_memory(start_addr, end_addr)`:
`for addr in range(start_addr, min(end_addr + 1, len(self.data_memory)))`,
appending `(addr, self.data_memory[addr])`.  `range(a, b)` is
`List.range' a (b - a)`. -/
def VirtualMachine.dump_memory (vm : VirtualMachine) (start_addr end_addr : Nat) :
    Except PyErr (List (Nat × Int)) :=
  dumpLoop vm.data_memory
    (List.range' start_addr (min (end_addr + 1) vm.data_memory.length - start_addr))

/-- Iterated `execute_step`, propagating any exception: `stepIter vm n`
performs `n` step calls (a halted step returns the state unchanged). -/
def stepIter (vm : VirtualMachine) : Nat → Except PyErr VirtualMachine
  | 0 => .ok vm
  | n + 1 =>
    match vm.execute_step with
    | .error e => .error e
    | .ok (vm1, _) => stepIter vm1 n

/-- The values of registers and memory cells: the non-negativity invariant
of C9. -/
def NonnegState (vm : VirtualMachine) : Prop :=
  (∀ x ∈ vm.registers, 0 ≤ x) ∧ (∀ x ∈ vm.data_memory, 0 ≤ x)

/-- All operands of a command are non-negative (true of every decoded
command, whose operands are masked natural numbers). -/
def CmdNonneg (c : Command) : Prop :=
  ∀ x ∈ c.args, 0 ≤ x

/-- The declared operand ranges of each opcode: register fields in
`[0, 31]`, LoadConst's constant in `[0, 2^24 - 1]`, ShiftRight's address in
`[0, 2^30 - 1]`. -/
def InRangeCmd (c : Command) : Prop :=
  match c.opcode with
  | .LOAD_CONST => ∃ r k : Nat, c.args = [(r : Int), (k : Int)] ∧ r ≤ 31 ∧ k ≤ 2 ^ 24 - 1
  | .READ_MEM => ∃ r k : Nat, c.args = [(r : Int), (k : Int)] ∧ r ≤ 31 ∧ k ≤ 31
  | .WRITE_MEM => ∃ r k : Nat, c.args = [(r : Int), (k : Int)] ∧ r ≤ 31 ∧ k ≤ 31
  | .SHR => ∃ r k : Nat, c.args = [(r : Int), (k : Int)] ∧ r ≤ 31 ∧ k ≤ 2 ^ 30 - 1

/-- A byte string that is exactly one well-formed record: nonempty, and its
first byte's low 7 bits name an opcode whose declared width is the record's
length. -/
def goodRecord : List Nat → Bool
  | [] => false
  | b :: rest => cmdLen (b &&& 0x7F) == some (rest.length + 1)

/-- A machine holding a two-instruction program, used by the C3 and C6
claims. -/
def vmTwoLoads : VirtualMachine :=
  ⟨List.replicate 32 0, List.replicate 4 0,
   [⟨.LOAD_CONST, [1, 5], []⟩, ⟨.LOAD_CONST, [2, 6], []⟩], 0⟩

theorem pyIdx_ok_lt {len : Nat} {i : Int} {k : Nat} (h : pyIdx len i = .ok k) :
    k < len := by
  unfold pyIdx at h
  split at h
  · split at h
    · cases h
      omega
    · cases h
  · split at h
    · cases h
      omega
    · cases h

theorem pyGet_ok_mem {xs : List Int} {i : Int} {v : Int} (h : pyGet xs i = .ok v) :
    v ∈ xs := by
  unfold pyGet at h
  cases hk : pyIdx xs.length i with
  | error e => rw [hk] at h; cases h
  | ok k =>
    rw [hk] at h
    cases h
    have hlt := pyIdx_ok_lt hk
    show xs.getD k 0 ∈ xs
    rw [List.getD_eq_getElem xs 0 hlt]
    exact List.getElem_mem hlt

theorem pyGet_nat_ok (xs : List Int) (k : Nat) (h : k < xs.length) :
    pyGet xs (k : Int) = .ok (xs.getD k 0) := by
  unfold pyGet pyIdx
  have h0 : (0 : Int) ≤ (k : Int) := Int.ofNat_nonneg k
  have h1 : (k : Int) < (xs.length : Int) := by exact_mod_cast h
  rw [if_pos h0, if_pos h1]
  simp [Except.map, Int.toNat_ofNat]

theorem pySet_nat_ok (xs : List Int) (k : Nat) (v : Int) (h : k < xs.length) :
    pySet xs (k : Int) v = .ok (xs.set k v) := by
  unfold pySet pyIdx
  have h0 : (0 : Int) ≤ (k : Int) := Int.ofNat_nonneg k
  have h1 : (k : Int) < (xs.length : Int) := by exact_mod_cast h
  rw [if_pos h0, if_pos h1]
  simp [Except.map, Int.toNat_ofNat]

/-- `execute_command` never touches `pc` or the loaded program (nor the
lengths of the two arrays). -/
theorem exec_cmd_frame {vm vm' : VirtualMachine} {c : Command}
    (h : vm.execute_command c = .ok vm') :
    vm'.pc = vm.pc ∧ vm'.program = vm.program
      ∧ vm'.registers.length = vm.registers.length
      ∧ vm'.data_memory.length = vm.data_memory.length := by
  unfold VirtualMachine.execute_command at h
  repeat' split at h
  all_goals cases h
  all_goals simp_all [pySet]
  all_goals
    rename_i hset
    cases hidx : pyIdx _ _ with
    | error e => rw [hidx] at hset; cases hset
    | ok k => rw [hidx] at hset; cases hset; simp

theorem exec_step_true {vm vm1 : VirtualMachine}
    (h : vm.execute_step = .ok (vm1, true)) :
    vm1.pc = vm.pc + 1 ∧ vm1.program = vm.program ∧ vm.pc < vm.program.length := by
  unfold VirtualMachine.execute_step at h
  split at h
  · cases h
  · rename_i hlt
    cases hc : vm.execute_command (vm.program.getD vm.pc cmdDefault) with
    | error e => rw [hc] at h; cases h
    | ok vmx =>
      rw [hc] at h
      cases h
      have hf := exec_cmd_frame hc
      refine ⟨by simp [hf.1], by simp [hf.2.1], by omega⟩

theorem exec_step_false {vm vm1 : VirtualMachine}
    (h : vm.execute_step = .ok (vm1, false)) :
    vm1 = vm ∧ vm.program.length ≤ vm.pc := by
  unfold VirtualMachine.execute_step at h
  split at h
  · cases h
    rename_i hle
    exact ⟨rfl, hle⟩
  · cases hc : vm.execute_command (vm.program.getD vm.pc cmdDefault) with
    | error e => rw [hc] at h; cases h
    | ok vmx => rw [hc] at h; cases h

/-- Where `runLoop` (hence `run`) leaves the program counter when it
returns normally: unchanged when already halted, otherwise advanced to
`min (program length) (pc + remaining + 1)` — one more than the budget,
because the Python loop tests `steps < max_steps` only after calling
`execute_step`. -/
theorem runLoop_pc :
    ∀ (r : Nat) (vm vm' : VirtualMachine), runLoop vm r = .ok vm' →
      vm'.pc = if vm.program.length ≤ vm.pc then vm.pc
               else min vm.program.length (vm.pc + r + 1) := by
  intro r
  induction r with
  | zero =>
    intro vm vm' h
    unfold runLoop at h
    cases hs : vm.execute_step with
    | error e => rw [hs] at h; cases h
    | ok p =>
      rw [hs] at h
      match p with
      | (vm1, false) =>
        cases h
        have := exec_step_false hs
        rw [if_pos this.2, this.1]
      | (vm1, true) =>
        cases h
        have := exec_step_true hs
        rw [if_neg (by omega)]
        omega
  | succ n ih =>
    intro vm vm' h
    unfold runLoop at h
    cases hs : vm.execute_step with
    | error e => rw [hs] at h; cases h
    | ok p =>
      rw [hs] at h
      match p with
      | (vm1, false) =>
        cases h
        have := exec_step_false hs
        rw [if_pos this.2, this.1]
      | (vm1, true) =>
        have ht := exec_step_true hs
        have ihh := ih vm1 vm' h
        rw [ht.2.1, ht.1] at ihh
        have hlt := ht.2.2
        rw [if_neg (by omega)]
        by_cases hc : vm.program.length ≤ vm.pc + 1
        · rw [if_pos hc] at ihh
          omega
        · rw [if_neg hc] at ihh
          omega

/-- C1: the claim says `to_binary` returns exactly 5/3/3/6 bytes for
LoadConst/ReadMem/WriteMem/ShiftRight on in-range operands and never fails.
The code instead packs LoadConst with `'<I'` (4 bytes) and ReadMem/WriteMem
with `'<H'` (2 bytes): the slice `[:5]`/`[:3]` cannot lengthen the result,
so LoadConst yields 4 bytes and ReadMem 2 bytes, and `struct.pack` raises
`struct.error` once the packed value overflows the format, e.g. for the
in-range operands LoadConst(const = 2^20) and ReadMem(dst_reg = 16). -/
theorem C1_encode_width_code_eval :
    Command.to_binary ⟨.LOAD_CONST, [1, 5], []⟩ = .ok [172, 80, 0, 0]
    ∧ (Command.to_binary ⟨.LOAD_CONST, [1, 5], []⟩).map List.length = .ok 4
    ∧ Command.to_binary ⟨.LOAD_CONST, [0, 1048576], []⟩ = .error .structError
    ∧ (Command.to_binary ⟨.READ_MEM, [1, 2], []⟩).map List.length = .ok 2
    ∧ Command.to_binary ⟨.READ_MEM, [0, 16], []⟩ = .error .structError
    ∧ Command.to_binary ⟨.WRITE_MEM, [0, 16], []⟩ = .error .structError
    ∧ (Command.to_binary ⟨.SHR, [31, 1073741823], []⟩).map List.length = .ok 6 := by
  decide

/-- C2: the claim says `decode(encode(instr)) = instr` for every in-range
operand tuple.  Encoding LoadConst(reg = 0, const = 2^20) already raises
`struct.error` (the packed value is 2^32, out of range for `'<I'`), so the
round trip cannot even be computed there; and where encoding succeeds, the
decoded `Command` differs from the original in the `raw_bytes` dataclass
field, so dataclass equality still fails. -/
theorem C2_roundtrip_code_eval :
    Command.to_binary ⟨.LOAD_CONST, [0, 1048576], []⟩ = .error .structError
    ∧ (Command.to_binary ⟨.LOAD_CONST, [1, 5], []⟩).bind Command.from_binary
        = .ok ⟨.LOAD_CONST, [1, 5], [172, 80, 0, 0, 0]⟩
    ∧ (⟨.LOAD_CONST, [1, 5], [172, 80, 0, 0, 0]⟩ : Command) ≠ ⟨.LOAD_CONST, [1, 5], []⟩ := by
  decide

/-- C3: the claim says `run(maxSteps)` on a Program of N instructions ends
with `programCounter = min(N, maxSteps)`.  On the two-instruction program
with `maxSteps = 1` the loop executes a step, only then tests
`steps < max_steps`, executes one more step, and ends with `pc = 2`, not
`min 2 1 = 1`. -/
theorem C3_run_counterexample :
    (vmTwoLoads.run 1).map (fun v => v.pc) = .ok 2
    ∧ (2 : Nat) ≠ min vmTwoLoads.program.length 1 := by
  decide

/-- C3 (amended): when `run(maxSteps)` completes without an exception on a
machine whose `pc` starts at 0, it leaves
`pc = min (program length) (maxSteps + 1)`: exactly N steps when
N ≤ maxSteps, and maxSteps + 1 steps (one more than the claim says)
otherwise, because Python's `while execute_step() and steps < max_steps`
calls `execute_step` before testing the budget. -/
theorem C3_run_amended (vm vm' : VirtualMachine) (m : Nat)
    (h0 : vm.pc = 0) (h : vm.run m = .ok vm') :
    vm'.pc = min vm.program.length (m + 1) := by
  have hp := runLoop_pc m vm vm' h
  rw [h0] at hp
  by_cases hz : vm.program.length ≤ 0
  · rw [if_pos hz] at hp
    omega
  · rw [if_neg hz] at hp
    omega

/-- C3 witness: the amended claim at the concrete two-instruction program
with `maxSteps = 1`: the run succeeds and ends with
`pc = min 2 (1 + 1) = 2`. -/
theorem C3_run_amended_witness :
    vmTwoLoads.pc = 0
    ∧ vmTwoLoads.run 1
        = .ok ⟨((List.replicate 32 0).set 1 5).set 2 6, List.replicate 4 0,
               vmTwoLoads.program, 2⟩
    ∧ (⟨((List.replicate 32 0).set 1 5).set 2 6, List.replicate 4 0,
        vmTwoLoads.program, 2⟩ : VirtualMachine).pc
        = min vmTwoLoads.program.length (1 + 1) :=
  ⟨rfl, by decide,
   C3_run_amended vmTwoLoads
     ⟨((List.replicate 32 0).set 1 5).set 2 6, List.replicate 4 0,
      vmTwoLoads.program, 2⟩ 1 rfl (by decide)⟩

theorem loadScan_nil : loadScan [] = ([], none) := by
  simp [loadScan]

theorem loadScan_unknown (b : Nat) (tl : List Nat) (hb : cmdLen (b &&& 0x7F) = none) :
    loadScan (b :: tl) = ([], some .valueError) := by
  rw [loadScan]
  rw [hb]

/-- Scanning one well-formed record followed by anything decodes the record
and continues on the remainder. -/
theorem loadScan_cons_good (r rest : List Nat) (c : Command)
    (hc : Command.from_binary r = .ok c) (hg : goodRecord r = true) :
    loadScan (r ++ rest) = (c :: (loadScan rest).1, (loadScan rest).2) := by
  obtain ⟨b, tl, rfl⟩ : ∃ b tl, r = b :: tl := by
    cases r with
    | nil => simp [goodRecord] at hg
    | cons b tl => exact ⟨b, tl, rfl⟩
  have hlen : cmdLen (b &&& 0x7F) = some (tl.length + 1) := eq_of_beq hg
  show loadScan (b :: (tl ++ rest)) = _
  rw [loadScan, hlen]
  simp only [List.take_succ_cons, List.take_left, List.drop_succ_cons, List.drop_left,
    List.length_cons]
  rw [if_neg (by omega), hc]

theorem loadScan_singleton (r : List Nat) (c : Command)
    (hc : Command.from_binary r = .ok c) (hg : goodRecord r = true) :
    loadScan r = ([c], none) := by
  have h := loadScan_cons_good r [] c hc hg
  rw [List.append_nil] at h
  rw [h, loadScan_nil]

/-- Decoding a well-formed record always succeeds. -/
theorem from_binary_good {r : List Nat} (hg : goodRecord r = true) :
    ∃ c, Command.from_binary r = .ok c := by
  cases r with
  | nil => simp [goodRecord] at hg
  | cons b tl =>
    have hlen : cmdLen (b &&& 0x7F) = some (tl.length + 1) := eq_of_beq hg
    simp only [Command.from_binary]
    by_cases h44 : b &&& 0x7F = 44
    · rw [if_pos h44]
      exact ⟨_, rfl⟩
    · rw [if_neg h44]
      by_cases h120 : b &&& 0x7F = 120
      · rw [if_pos h120]
        exact ⟨_, rfl⟩
      · rw [if_neg h120]
        by_cases h34 : b &&& 0x7F = 34
        · rw [if_pos h34]
          exact ⟨_, rfl⟩
        · rw [if_neg h34]
          by_cases h37 : b &&& 0x7F = 37
          · rw [if_pos h37]
            exact ⟨_, rfl⟩
          · exfalso
            unfold cmdLen at hlen
            rw [if_neg h44, if_neg (by tauto), if_neg h37] at hlen
            cases hlen

/-- Every command the scan appends was produced by `Command.from_binary`. -/
theorem loadScan_mem : ∀ (bin : List Nat) (c : Command), c ∈ (loadScan bin).1 →
    ∃ ch, Command.from_binary ch = .ok c := by
  intro bin
  induction bin using loadScan.induct with
  | case1 =>
    intro c h
    simp [loadScan] at h
  | case2 b rest hb =>
    intro c h
    rw [loadScan, hb] at h
    simp at h
  | case3 b rest n hb chunk0 chunk e herr =>
    intro c h
    rw [loadScan, hb] at h
    simp only at h
    have herr2 : Command.from_binary (if (List.take n (b :: rest)).length < n
        then ljust (List.take n (b :: rest)) n else List.take n (b :: rest)) = .error e := herr
    rw [herr2] at h
    simp at h
  | case4 b rest n hb chunk0 chunk cmd hok cs e2 hcs ih =>
    intro c h
    rw [loadScan, hb] at h
    simp only at h
    have hok2 : Command.from_binary (if (List.take n (b :: rest)).length < n
        then ljust (List.take n (b :: rest)) n else List.take n (b :: rest)) = .ok cmd := hok
    rw [hok2] at h
    rcases List.mem_cons.1 h with hcc | hcc
    · subst hcc
      exact ⟨_, hok2⟩
    · exact ih c hcc

/-- Every command `Command.from_binary` produces has masked, in-range
operands. -/
theorem from_binary_inrange {bin : List Nat} {c : Command}
    (h : Command.from_binary bin = .ok c) : InRangeCmd c := by
  cases bin with
  | nil => cases h
  | cons b tl =>
    simp only [Command.from_binary] at h
    by_cases h44 : b &&& 0x7F = 44
    · rw [if_pos h44] at h
      cases h
      exact ⟨_, _, rfl, Nat.and_le_right, le_trans Nat.and_le_right (by norm_num)⟩
    · rw [if_neg h44] at h
      by_cases h120 : b &&& 0x7F = 120
      · rw [if_pos h120] at h
        cases h
        exact ⟨_, _, rfl, Nat.and_le_right, Nat.and_le_right⟩
      · rw [if_neg h120] at h
        by_cases h34 : b &&& 0x7F = 34
        · rw [if_pos h34] at h
          cases h
          exact ⟨_, _, rfl, Nat.and_le_right, Nat.and_le_right⟩
        · rw [if_neg h34] at h
          by_cases h37 : b &&& 0x7F = 37
          · rw [if_pos h37] at h
            cases h
            exact ⟨_, _, rfl, Nat.and_le_right, le_trans Nat.and_le_right (by norm_num)⟩
          · rw [if_neg h37] at h
            cases h

theorem inRange_nonneg {c : Command} (h : InRangeCmd c) : CmdNonneg c := by
  intro x hx
  unfold InRangeCmd at h
  split at h <;> obtain ⟨r, k, hargs, -, -⟩ := h <;> rw [hargs] at hx <;>
    simp only [List.mem_cons, List.not_mem_nil, or_false] at hx <;>
    rcases hx with hh | hh <;> subst hh <;> exact Int.ofNat_nonneg _

/-- C4: the claim says a load hitting an unrecognized opcode code produces
no partial program.  `load_program` clears `self.program` and then appends
as it scans, so when the scan raises on the byte `127` (code `0x7F`,
unknown) after one valid ReadMem record, the machine is left holding that
decoded instruction: the error is raised, but a partial program remains. -/
theorem C4_load_counterexample :
    ((initVM 4).load_program [120, 0, 0, 127]).2 = some PyErr.valueError
    ∧ ((initVM 4).load_program [120, 0, 0, 127]).1.program
        = [⟨.READ_MEM, [0, 0], [120, 0, 0]⟩] := by
  have h1 : Command.from_binary [120, 0, 0] = .ok ⟨.READ_MEM, [0, 0], [120, 0, 0]⟩ := by
    decide
  have h2 : loadScan ([120, 0, 0] ++ [127])
      = (⟨.READ_MEM, [0, 0], [120, 0, 0]⟩ :: (loadScan [127]).1, (loadScan [127]).2) :=
    loadScan_cons_good [120, 0, 0] [127] _ h1 (by decide)
  have h3 : loadScan [127] = ([], some PyErr.valueError) :=
    loadScan_unknown 127 [] (by decide)
  have h4 : loadScan [120, 0, 0, 127]
      = ([⟨.READ_MEM, [0, 0], [120, 0, 0]⟩], some PyErr.valueError) := by
    have he : ([120, 0, 0] ++ [127] : List Nat) = [120, 0, 0, 127] := rfl
    rw [← he, h2, h3]
  constructor <;> simp [VirtualMachine.load_program, h4]

/-- C4 (amended): on an input made of well-formed records followed by a
byte with an unrecognized opcode code, `load_program` raises `ValueError`,
but a partial program IS produced: the machine's program afterwards holds
exactly the instructions decoded from the records before the offending
byte (the previously loaded program having been cleared). -/
theorem C4_load_amended (vm : VirtualMachine) (rs : List (List Nat)) (b : Nat)
    (tl : List Nat) (hrs : ∀ r ∈ rs, goodRecord r = true)
    (hb : cmdLen (b &&& 0x7F) = none) :
    vm.load_program (rs.flatten ++ b :: tl)
      = ({ vm with program := rs.filterMap (fun r => (Command.from_binary r).toOption) },
         some PyErr.valueError) := by
  have hscan : ∀ rs2 : List (List Nat), (∀ r ∈ rs2, goodRecord r = true) →
      loadScan (rs2.flatten ++ b :: tl)
        = (rs2.filterMap (fun r => (Command.from_binary r).toOption),
           some PyErr.valueError) := by
    intro rs2
    induction rs2 with
    | nil =>
      intro _
      simp only [List.flatten_nil, List.nil_append, List.filterMap_nil]
      exact loadScan_unknown b tl hb
    | cons r rs3 ih =>
      intro h2
      have hgr : goodRecord r = true := h2 r (by simp)
      obtain ⟨c, hcr⟩ := from_binary_good hgr
      have hstep := loadScan_cons_good r (rs3.flatten ++ b :: tl) c hcr hgr
      rw [List.flatten_cons, List.append_assoc, hstep,
        ih (fun x hx => h2 x (by simp [hx]))]
      simp [List.filterMap_cons, hcr, Except.toOption]
  rw [VirtualMachine.load_program, hscan rs hrs]

/-- C4 witness: the amended claim at the concrete input of one ReadMem
record followed by the unknown code byte 127. -/
theorem C4_load_amended_witness :
    (∀ r ∈ [[120, 0, 0]], goodRecord r = true)
    ∧ cmdLen (127 &&& 0x7F) = none
    ∧ (initVM 4).load_program (List.flatten [[120, 0, 0]] ++ 127 :: [])
        = ({ initVM 4 with
              program := [[120, 0, 0]].filterMap
                (fun r => (Command.from_binary r).toOption) },
           some PyErr.valueError) :=
  ⟨by decide, by decide,
   C4_load_amended (initVM 4) [[120, 0, 0]] 127 [] (by decide) (by decide)⟩

/-- C6: the claim says that whenever `pc < len(program)`, `step` executes
the instruction, increments `pc` and returns `true`.  But the executed
instruction can itself raise: on a machine loaded (via `load_program`)
with the single record of ShiftRight(reg = 0, memAddr = 10) and a 4-cell
memory, `execute_step` propagates `IndexError` instead of returning
`true`, and `pc` is not incremented. -/
theorem C6_step_counterexample :
    ((initVM 4).load_program [37, 160, 0, 0, 0, 0]).2 = none
    ∧ ((initVM 4).load_program [37, 160, 0, 0, 0, 0]).1.pc
        < ((initVM 4).load_program [37, 160, 0, 0, 0, 0]).1.program.length
    ∧ ((initVM 4).load_program [37, 160, 0, 0, 0, 0]).1.execute_step
        = .error PyErr.indexError := by
  have h1 : Command.from_binary [37, 160, 0, 0, 0, 0]
      = .ok ⟨.SHR, [0, 10], [37, 160, 0, 0, 0, 0]⟩ := by decide
  have hs := loadScan_singleton _ _ h1 (by decide)
  have hload : (initVM 4).load_program [37, 160, 0, 0, 0, 0]
      = ({ initVM 4 with program := [⟨.SHR, [0, 10], [37, 160, 0, 0, 0, 0]⟩] }, none) := by
    rw [VirtualMachine.load_program, hs]
  rw [hload]
  refine ⟨rfl, by decide, by decide⟩

/-- C6 (amended): if `pc ≥ len(program)`, `step` returns `false` with no
state change.  Otherwise it executes the instruction at `pc`: when that
execution succeeds, `pc` grows by exactly 1 and `step` returns `true`;
when it raises, `step` raises the same exception and `pc` stays put. -/
theorem C6_step_amended (vm : VirtualMachine) :
    (vm.program.length ≤ vm.pc → vm.execute_step = .ok (vm, false))
    ∧ (vm.pc < vm.program.length →
        (∀ vm1, vm.execute_command (vm.program.getD vm.pc cmdDefault) = .ok vm1 →
          vm.execute_step = .ok ({ vm1 with pc := vm.pc + 1 }, true) ∧ vm1.pc = vm.pc)
        ∧ (∀ e, vm.execute_command (vm.program.getD vm.pc cmdDefault) = .error e →
          vm.execute_step = .error e)) := by
  refine ⟨fun hle => ?_, fun hlt => ⟨fun vm1 h1 => ?_, fun e he => ?_⟩⟩
  · unfold VirtualMachine.execute_step
    rw [if_pos hle]
  · have hf := exec_cmd_frame h1
    constructor
    · unfold VirtualMachine.execute_step
      rw [if_neg (by omega), h1]
      show Except.ok ({ vm1 with pc := vm1.pc + 1 }, true)
          = Except.ok ({ vm1 with pc := vm.pc + 1 }, true)
      rw [hf.1]
    · exact hf.1
  · unfold VirtualMachine.execute_step
    rw [if_neg (by omega), he]

/-- C6 witness: the amended claim at two concrete machines — a halted one
(empty program) and one about to execute LoadConst(reg = 1, const = 5). -/
theorem C6_step_amended_witness :
    (initVM 4).execute_step = .ok (initVM 4, false)
    ∧ vmTwoLoads.execute_step
        = .ok (⟨(List.replicate 32 0).set 1 5, List.replicate 4 0,
                vmTwoLoads.program, 0 + 1⟩, true)
    ∧ (⟨(List.replicate 32 0).set 1 5, List.replicate 4 0,
        vmTwoLoads.program, 0⟩ : VirtualMachine).pc = vmTwoLoads.pc := by
  refine ⟨(C6_step_amended (initVM 4)).1 (by decide), ?_, ?_⟩
  · exact (((C6_step_amended vmTwoLoads).2 (by decide)).1
      ⟨(List.replicate 32 0).set 1 5, List.replicate 4 0, vmTwoLoads.program, 0⟩
      (by decide)).1
  · exact (((C6_step_amended vmTwoLoads).2 (by decide)).1
      ⟨(List.replicate 32 0).set 1 5, List.replicate 4 0, vmTwoLoads.program, 0⟩
      (by decide)).2

theorem set_all_nonneg {xs : List Int} {k : Nat} {v : Int}
    (hxs : ∀ x ∈ xs, 0 ≤ x) (hv : 0 ≤ v) : ∀ x ∈ xs.set k v, 0 ≤ x := by
  intro x hx
  rcases List.mem_or_eq_of_mem_set hx with h | h
  · exact hxs x h
  · subst h
    exact hv

theorem pySet_ok_nonneg {xs ys : List Int} {i v : Int}
    (hxs : ∀ x ∈ xs, 0 ≤ x) (hv : 0 ≤ v) (h : pySet xs i v = .ok ys) :
    ∀ x ∈ ys, 0 ≤ x := by
  unfold pySet at h
  cases hk : pyIdx xs.length i with
  | error e => rw [hk] at h; cases h
  | ok k =>
    rw [hk] at h
    cases h
    exact set_all_nonneg hxs hv

theorem pyShiftRight_ok_nonneg {x s r : Int} (hx : 0 ≤ x)
    (h : pyShiftRight x s = .ok r) : 0 ≤ r := by
  unfold pyShiftRight at h
  split at h
  · cases h
  · cases h
    exact Int.fdiv_nonneg hx (by positivity)

/-- Executing any command with non-negative operands preserves the
non-negativity of every register and memory cell: each opcode stores a
decoded constant, a copied cell value, or a right shift of a non-negative
value. -/
theorem exec_cmd_nonneg {vm vm' : VirtualMachine} {c : Command}
    (hnn : NonnegState vm) (hc : CmdNonneg c) (h : vm.execute_command c = .ok vm') :
    NonnegState vm' := by
  obtain ⟨hr, hm⟩ := hnn
  obtain ⟨op, args, raw⟩ := c
  cases op with
  | LOAD_CONST =>
    rcases args with _ | ⟨a, _ | ⟨b, _ | ⟨x, xs⟩⟩⟩
    · exact absurd h (by simp [VirtualMachine.execute_command])
    · exact absurd h (by simp [VirtualMachine.execute_command])
    · simp only [VirtualMachine.execute_command] at h
      cases hset : pySet vm.registers a b with
      | error e => rw [hset] at h; cases h
      | ok regs =>
        rw [hset] at h
        cases h
        exact ⟨pySet_ok_nonneg hr (hc b (by simp)) hset, hm⟩
    · exact absurd h (by simp [VirtualMachine.execute_command])
  | READ_MEM =>
    rcases args with _ | ⟨a, _ | ⟨b, _ | ⟨x, xs⟩⟩⟩
    · exact absurd h (by simp [VirtualMachine.execute_command])
    · exact absurd h (by simp [VirtualMachine.execute_command])
    · simp only [VirtualMachine.execute_command] at h
      cases hga : pyGet vm.registers a with
      | error e => rw [hga] at h; cases h
      | ok addr =>
        rw [hga] at h
        simp only at h
        cases hgm : pyGet vm.data_memory addr with
        | error e => rw [hgm] at h; cases h
        | ok v =>
          rw [hgm] at h
          simp only at h
          cases hset : pySet vm.registers b v with
          | error e => rw [hset] at h; cases h
          | ok regs =>
            rw [hset] at h
            cases h
            exact ⟨pySet_ok_nonneg hr (hm v (pyGet_ok_mem hgm)) hset, hm⟩
    · exact absurd h (by simp [VirtualMachine.execute_command])
  | WRITE_MEM =>
    rcases args with _ | ⟨a, _ | ⟨b, _ | ⟨x, xs⟩⟩⟩
    · exact absurd h (by simp [VirtualMachine.execute_command])
    · exact absurd h (by simp [VirtualMachine.execute_command])
    · simp only [VirtualMachine.execute_command] at h
      cases hga : pyGet vm.registers b with
      | error e => rw [hga] at h; cases h
      | ok addr =>
        rw [hga] at h
        simp only at h
        cases hgv : pyGet vm.registers a with
        | error e => rw [hgv] at h; cases h
        | ok v =>
          rw [hgv] at h
          simp only at h
          cases hset : pySet vm.data_memory addr v with
          | error e => rw [hset] at h; cases h
          | ok mem =>
            rw [hset] at h
            cases h
            exact ⟨hr, pySet_ok_nonneg hm (hr v (pyGet_ok_mem hgv)) hset⟩
    · exact absurd h (by simp [VirtualMachine.execute_command])
  | SHR =>
    rcases args with _ | ⟨a, _ | ⟨b, _ | ⟨x, xs⟩⟩⟩
    · exact absurd h (by simp [VirtualMachine.execute_command])
    · exact absurd h (by simp [VirtualMachine.execute_command])
    · simp only [VirtualMachine.execute_command] at h
      cases hgs : pyGet vm.data_memory b with
      | error e => rw [hgs] at h; cases h
      | ok s =>
        rw [hgs] at h
        simp only at h
        cases hgx : pyGet vm.registers a with
        | error e => rw [hgx] at h; cases h
        | ok xv =>
          rw [hgx] at h
          simp only at h
          cases hsr : pyShiftRight xv s with
          | error e => rw [hsr] at h; cases h
          | ok rv =>
            rw [hsr] at h
            simp only at h
            cases hset : pySet vm.registers a rv with
            | error e => rw [hset] at h; cases h
            | ok regs =>
              rw [hset] at h
              cases h
              exact ⟨pySet_ok_nonneg hr
                (pyShiftRight_ok_nonneg (hr xv (pyGet_ok_mem hgx)) hsr) hset, hm⟩
    · exact absurd h (by simp [VirtualMachine.execute_command])

theorem exec_step_nonneg {vm vm1 : VirtualMachine} {b : Bool}
    (hnn : NonnegState vm) (hprog : ∀ c ∈ vm.program, CmdNonneg c)
    (h : vm.execute_step = .ok (vm1, b)) :
    NonnegState vm1 ∧ vm1.program = vm.program := by
  unfold VirtualMachine.execute_step at h
  split at h
  · cases h
    exact ⟨hnn, rfl⟩
  · rename_i hlt
    cases hcc : vm.execute_command (vm.program.getD vm.pc cmdDefault) with
    | error e => rw [hcc] at h; cases h
    | ok vmx =>
      rw [hcc] at h
      cases h
      have hcm : CmdNonneg (vm.program.getD vm.pc cmdDefault) := by
        apply hprog
        rw [List.getD_eq_getElem _ _ (by omega)]
        exact List.getElem_mem (by omega)
      have hx := exec_cmd_nonneg ⟨hnn.1, hnn.2⟩ hcm hcc
      exact ⟨⟨hx.1, hx.2⟩, (exec_cmd_frame hcc).2.1⟩

theorem stepIter_nonneg : ∀ (n : Nat) (vm vmEnd : VirtualMachine),
    NonnegState vm → (∀ c ∈ vm.program, CmdNonneg c) →
    stepIter vm n = .ok vmEnd → NonnegState vmEnd := by
  intro n
  induction n with
  | zero =>
    intro vm vmEnd hnn _ h
    simp only [stepIter] at h
    cases h
    exact hnn
  | succ k ih =>
    intro vm vmEnd hnn hprog h
    simp only [stepIter] at h
    cases hs : vm.execute_step with
    | error e => rw [hs] at h; cases h
    | ok p =>
      rw [hs] at h
      obtain ⟨vm1, bb⟩ := p
      have hst := exec_step_nonneg hnn hprog hs
      exact ih vm1 vmEnd hst.1 (by rw [hst.2]; exact hprog) h

/-- C9: starting from a freshly constructed, zero-initialized machine and
any successfully loaded program, every register value and every memory
cell value after any number of successfully executed steps is
non-negative: decoded operands are masked natural numbers, and every
opcode stores a decoded constant, a copied non-negative value, or a right
shift of a non-negative value. -/
theorem C9_nonneg_confirmed (size n : Nat) (bin : List Nat)
    (vm0 vmEnd : VirtualMachine)
    (hload : (initVM size).load_program bin = (vm0, none))
    (hrun : stepIter vm0 n = .ok vmEnd) :
    NonnegState vmEnd := by
  have hvm0 : vm0 = { initVM size with program := (loadScan bin).1 } := by
    unfold VirtualMachine.load_program at hload
    cases hsc : loadScan bin with
    | mk cs e =>
      rw [hsc] at hload
      cases hload
      rfl
  have hnn : NonnegState vm0 := by
    rw [hvm0]
    constructor
    · intro x hx
      rw [List.eq_of_mem_replicate hx]
    · intro x hx
      rw [List.eq_of_mem_replicate hx]
  have hprog : ∀ c ∈ vm0.program, CmdNonneg c := by
    intro c hcm
    rw [hvm0] at hcm
    obtain ⟨ch, hch⟩ := loadScan_mem bin c hcm
    exact inRange_nonneg (from_binary_inrange hch)
  exact stepIter_nonneg n vm0 vmEnd hnn hprog hrun

/-- C9 witness: the invariant at the concrete machine that loads
LoadConst(reg = 1, const = 5) and executes one step. -/
theorem C9_nonneg_confirmed_witness :
    (initVM 4).load_program [172, 80, 0, 0, 0]
      = (⟨List.replicate 32 0, List.replicate 4 0,
          [⟨.LOAD_CONST, [1, 5], [172, 80, 0, 0, 0]⟩], 0⟩, none)
    ∧ stepIter ⟨List.replicate 32 0, List.replicate 4 0,
        [⟨.LOAD_CONST, [1, 5], [172, 80, 0, 0, 0]⟩], 0⟩ 1
      = .ok ⟨(List.replicate 32 0).set 1 5, List.replicate 4 0,
          [⟨.LOAD_CONST, [1, 5], [172, 80, 0, 0, 0]⟩], 1⟩
    ∧ NonnegState ⟨(List.replicate 32 0).set 1 5, List.replicate 4 0,
        [⟨.LOAD_CONST, [1, 5], [172, 80, 0, 0, 0]⟩], 1⟩ := by
  have h1 : Command.from_binary [172, 80, 0, 0, 0]
      = .ok ⟨.LOAD_CONST, [1, 5], [172, 80, 0, 0, 0]⟩ := by decide
  have hs := loadScan_singleton _ _ h1 (by decide)
  have hload : (initVM 4).load_program [172, 80, 0, 0, 0]
      = (⟨List.replicate 32 0, List.replicate 4 0,
          [⟨.LOAD_CONST, [1, 5], [172, 80, 0, 0, 0]⟩], 0⟩, none) := by
    rw [VirtualMachine.load_program, hs]
    rfl
  exact ⟨hload, by decide,
    C9_nonneg_confirmed 4 1 [172, 80, 0, 0, 0] _ _ hload (by decide)⟩

/-- C10: every successfully decoded instruction has operands within the
declared field ranges — register fields in `[0, 31]` (masked with `0x1F`),
LoadConst's constant in `[0, 2^24 - 1]` (masked with `0xFFFFFF`),
ShiftRight's address in `[0, 2^30 - 1]` (masked with `0x3FFFFFFF`) — and
hence every instruction of a loaded program is in range. -/
theorem C10_decode_ranges_confirmed (bin : List Nat) :
    (∀ c, Command.from_binary bin = .ok c → InRangeCmd c)
    ∧ (∀ (vm vm1 : VirtualMachine) (e : Option PyErr), vm.load_program bin = (vm1, e) →
        ∀ c ∈ vm1.program, InRangeCmd c) := by
  constructor
  · intro c h
    exact from_binary_inrange h
  · intro vm vm1 e h c hcm
    have hprog : vm1.program = (loadScan bin).1 := by
      unfold VirtualMachine.load_program at h
      cases hsc : loadScan bin with
      | mk cs e2 =>
        rw [hsc] at h
        cases h
        rfl
    rw [hprog] at hcm
    obtain ⟨ch, hch⟩ := loadScan_mem bin c hcm
    exact from_binary_inrange hch

/-- C10 witness: range membership for a decoded LoadConst record and for
the single instruction of a loaded ShiftRight program. -/
theorem C10_decode_ranges_confirmed_witness :
    InRangeCmd ⟨.LOAD_CONST, [1, 5], [172, 80, 0, 0, 0]⟩
    ∧ InRangeCmd ⟨.SHR, [0, 10], [37, 160, 0, 0, 0, 0]⟩ := by
  constructor
  · exact (C10_decode_ranges_confirmed [172, 80, 0, 0, 0]).1 _ (by decide)
  · have h1 : Command.from_binary [37, 160, 0, 0, 0, 0]
        = .ok ⟨.SHR, [0, 10], [37, 160, 0, 0, 0, 0]⟩ := by decide
    have hs := loadScan_singleton _ _ h1 (by decide)
    have hload : (initVM 4).load_program [37, 160, 0, 0, 0, 0]
        = ({ initVM 4 with program := [⟨.SHR, [0, 10], [37, 160, 0, 0, 0, 0]⟩] },
           none) := by
      rw [VirtualMachine.load_program, hs]
    exact (C10_decode_ranges_confirmed [37, 160, 0, 0, 0, 0]).2 (initVM 4) _ none
      hload _ (by simp)

theorem pyGet_err {xs : List Int} {i : Int} {e : PyErr}
    (h : pyGet xs i = .error e) : e = .indexError := by
  unfold pyGet pyIdx at h
  split at h
  · split at h
    · cases h
    · cases h
      rfl
  · split at h
    · cases h
    · cases h
      rfl

theorem pyGet_oob_err (xs : List Int) (i : Int)
    (h : (xs.length : Int) ≤ i ∨ i < -(xs.length : Int)) :
    pyGet xs i = .error .indexError := by
  unfold pyGet pyIdx
  rcases h with h | h
  · rw [if_pos (le_trans (Int.ofNat_nonneg _) h), if_neg (by omega)]
    rfl
  · rw [if_neg (by omega), if_neg (by omega)]
    rfl

theorem pySet_oob_err (xs : List Int) (i v : Int)
    (h : (xs.length : Int) ≤ i ∨ i < -(xs.length : Int)) :
    pySet xs i v = .error .indexError := by
  unfold pySet pyIdx
  rcases h with h | h
  · rw [if_pos (le_trans (Int.ofNat_nonneg _) h), if_neg (by omega)]
    rfl
  · rw [if_neg (by omega), if_neg (by omega)]
    rfl

/-- C5: the claim says executing an instruction that references a memory
address outside the declared bounds `[0, len)` fails with an out-of-bounds
error.  But Python list indexing wraps negative indices: on a machine with
`registers[0] = -1` and a 2-cell memory, ReadMem(srcReg = 0, dstReg = 1)
references memory address `-1` — outside the declared bounds — yet
succeeds, reading `memory[-1]`, i.e. the LAST cell, into `registers[1]`. -/
theorem C5_oob_counterexample :
    (-1 : Int) < 0
    ∧ VirtualMachine.execute_command
        ⟨(List.replicate 32 0).set 0 (-1), [5, 6], [], 0⟩
        ⟨.READ_MEM, [0, 1], []⟩
      = .ok ⟨((List.replicate 32 0).set 0 (-1)).set 1 6, [5, 6], [], 0⟩ := by
  decide

/-- C5 (amended): an instruction referencing an index `i` with
`i ≥ len` or `i < -len` (the cases Python's indexing rejects) fails with
`IndexError`, which is distinguishable from the decoder's `ValueError`;
indices in `[-len, -1]` instead wrap around, Python-style.  Every read in
`execute_command` happens before the branch's single store, so a failing
step mutates nothing and the same error propagates out of `execute_step`
before `pc` is incremented. -/
theorem C5_oob_amended (vm : VirtualMachine) :
    (∀ src dst : Nat, src < vm.registers.length →
        (vm.data_memory.length : Int) ≤ vm.registers.getD src 0 →
        vm.execute_command ⟨.READ_MEM, [(src : Int), (dst : Int)], []⟩
          = .error .indexError)
    ∧ (∀ src addr : Nat, addr < vm.registers.length →
        (vm.data_memory.length : Int) ≤ vm.registers.getD addr 0 →
        vm.execute_command ⟨.WRITE_MEM, [(src : Int), (addr : Int)], []⟩
          = .error .indexError)
    ∧ (∀ reg : Nat, ∀ a : Int,
        ((vm.data_memory.length : Int) ≤ a ∨ a < -(vm.data_memory.length : Int)) →
        vm.execute_command ⟨.SHR, [(reg : Int), a], []⟩ = .error .indexError)
    ∧ (∀ const reg : Int,
        ((vm.registers.length : Int) ≤ reg ∨ reg < -(vm.registers.length : Int)) →
        vm.execute_command ⟨.LOAD_CONST, [reg, const], []⟩ = .error .indexError)
    ∧ PyErr.indexError ≠ PyErr.valueError := by
  refine ⟨?_, ?_, ?_, ?_, by decide⟩
  · intro src dst hsrc hbig
    simp only [VirtualMachine.execute_command]
    rw [pyGet_nat_ok vm.registers src hsrc]
    simp only
    rw [pyGet_oob_err vm.data_memory _ (Or.inl hbig)]
  · intro src addr haddr hbig
    simp only [VirtualMachine.execute_command]
    rw [pyGet_nat_ok vm.registers addr haddr]
    simp only
    cases hgv : pyGet vm.registers (src : Int) with
    | error e =>
      simp only
      rw [pyGet_err hgv]
    | ok v =>
      simp only
      rw [pySet_oob_err vm.data_memory _ v (Or.inl hbig)]
  · intro reg a hoob
    simp only [VirtualMachine.execute_command]
    rw [pyGet_oob_err vm.data_memory a hoob]
  · intro const reg hoob
    simp only [VirtualMachine.execute_command]
    rw [pySet_oob_err vm.registers reg const hoob]

/-- C5 witness: the amended claim on a machine whose `registers[0] = 5`
points past its 2-cell memory: ReadMem(srcReg = 0, dstReg = 1) fails with
`IndexError`. -/
theorem C5_oob_amended_witness :
    (0 : Nat) < (⟨(List.replicate 32 0).set 0 5, List.replicate 2 0, [], 0⟩
        : VirtualMachine).registers.length
    ∧ ((⟨(List.replicate 32 0).set 0 5, List.replicate 2 0, [], 0⟩
        : VirtualMachine).data_memory.length : Int)
        ≤ (⟨(List.replicate 32 0).set 0 5, List.replicate 2 0, [], 0⟩
        : VirtualMachine).registers.getD 0 0
    ∧ VirtualMachine.execute_command
        ⟨(List.replicate 32 0).set 0 5, List.replicate 2 0, [], 0⟩
        ⟨.READ_MEM, [((0 : Nat) : Int), ((1 : Nat) : Int)], []⟩
      = .error .indexError :=
  ⟨by decide, by decide,
   (C5_oob_amended ⟨(List.replicate 32 0).set 0 5, List.replicate 2 0, [], 0⟩).1 0 1
     (by decide) (by decide)⟩

theorem dumpLoop_ok (mem : List Int) :
    ∀ l : List Nat, (∀ a ∈ l, a < mem.length) →
      dumpLoop mem l = .ok (l.map (fun a => (a, mem.getD a 0))) := by
  intro l
  induction l with
  | nil =>
    intro _
    rfl
  | cons a rest ih =>
    intro hb
    have ha : a < mem.length := hb a (by simp)
    simp only [dumpLoop]
    rw [pyGet_nat_ok mem a ha]
    simp only
    rw [ih (fun x hx => hb x (by simp [hx]))]
    rfl

/-- C7: with `end ≥ M` (memory size), `dump_memory(start, end)` clamps the
range to the memory, never fails, and returns one `(address, value)` pair
per address from `start` up to `M - 1` in increasing order — exactly
`M - start` pairs. -/
theorem C7_dump_confirmed (vm : VirtualMachine) (s e : Nat)
    (h : vm.data_memory.length ≤ e) :
    vm.dump_memory s e
      = .ok ((List.range' s (vm.data_memory.length - s)).map
          (fun a => (a, vm.data_memory.getD a 0)))
    ∧ ((List.range' s (vm.data_memory.length - s)).map
        (fun a => (a, vm.data_memory.getD a 0))).length
      = vm.data_memory.length - s := by
  have hmin : min (e + 1) vm.data_memory.length = vm.data_memory.length := by
    omega
  constructor
  · unfold VirtualMachine.dump_memory
    rw [hmin]
    apply dumpLoop_ok
    intro a ha
    obtain ⟨i, hi, rfl⟩ := List.mem_range'.1 ha
    omega
  · simp

/-- C7 witness: dumping `[1, 10]` from a 4-cell memory yields the 3 pairs
for addresses 1, 2, 3. -/
theorem C7_dump_confirmed_witness :
    (initVM 4).data_memory.length ≤ 10
    ∧ (initVM 4).dump_memory 1 10
        = .ok ((List.range' 1 ((initVM 4).data_memory.length - 1)).map
            (fun a => (a, (initVM 4).data_memory.getD a 0))) :=
  ⟨by decide, (C7_dump_confirmed (initVM 4) 1 10 (by decide)).1⟩

/-- C8: the claim says any in-bounds ShiftRight sets the register to the
shifted value.  But the shift count is read from memory, and memory cells
are plain Python ints: with `registers[0] = 1` and the in-bounds cell
`memory[0] = -1`, ShiftRight(reg = 0, memAddr = 0) raises `ValueError`
("negative shift count") instead of storing anything. -/
theorem C8_shr_counterexample :
    (0 : Nat) < 32
    ∧ (0 : Nat) < 1
    ∧ VirtualMachine.execute_command
        ⟨(List.replicate 32 0).set 0 1, [-1], [], 0⟩ ⟨.SHR, [0, 0], []⟩
      = .error .valueError := by
  decide

/-- C8 (amended): for an in-bounds ShiftRight with a non-negative shift
count `memory[memAddr]`, execution stores
`floor(registers[reg] / 2 ^ memory[memAddr])` — Python's arbitrary-precision
`>>`, an arithmetic right shift — into `registers[reg]`, leaving every
other register and all memory unchanged; whenever `registers[reg] ≥ 0`
this equals the logical right shift of the claim.  A negative shift count
instead raises `ValueError`. -/
theorem C8_shr_amended (vm : VirtualMachine) (r a : Nat)
    (hr : r < vm.registers.length) (ha : a < vm.data_memory.length)
    (hs : 0 ≤ vm.data_memory.getD a 0) :
    vm.execute_command ⟨.SHR, [(r : Int), (a : Int)], []⟩
      = .ok { vm with registers := vm.registers.set r (Int.fdiv
          (vm.registers.getD r 0) (2 ^ (vm.data_memory.getD a 0).toNat)) }
    ∧ (0 ≤ vm.registers.getD r 0 →
        Int.fdiv (vm.registers.getD r 0) (2 ^ (vm.data_memory.getD a 0).toNat)
          = ((vm.registers.getD r 0).toNat >>> (vm.data_memory.getD a 0).toNat : Nat)) := by
  constructor
  · simp only [VirtualMachine.execute_command]
    rw [pyGet_nat_ok vm.data_memory a ha]
    simp only
    rw [pyGet_nat_ok vm.registers r hr]
    simp only
    have hshift : pyShiftRight (vm.registers.getD r 0) (vm.data_memory.getD a 0)
        = .ok (Int.fdiv (vm.registers.getD r 0)
            (2 ^ (vm.data_memory.getD a 0).toNat)) := by
      unfold pyShiftRight
      rw [if_neg (by omega)]
    rw [hshift]
    simp only
    rw [pySet_nat_ok vm.registers r _ hr]
  · intro hx
    obtain ⟨m, hm⟩ : ∃ m : Nat, vm.registers.getD r 0 = (m : Int) :=
      ⟨(vm.registers.getD r 0).toNat, (Int.toNat_of_nonneg hx).symm⟩
    rw [hm, Int.toNat_natCast, Nat.shiftRight_eq_div_pow, Int.ofNat_fdiv]
    norm_cast

set_option maxRecDepth 40000 in
/-- C8 witness: the amended claim at the spec's concrete example —
`registers[0] = 255`, `memory[500] = 2`, ShiftRight(reg = 0, memAddr = 500)
leaves `registers[0] = 255 >> 2 = 63`. -/
theorem C8_shr_amended_witness :
    VirtualMachine.execute_command
      ⟨(List.replicate 32 0).set 0 255, (List.replicate 501 0).set 500 2, [], 0⟩
      ⟨.SHR, [((0 : Nat) : Int), ((500 : Nat) : Int)], []⟩
      = .ok ⟨((List.replicate 32 0).set 0 255).set 0 63,
             (List.replicate 501 0).set 500 2, [], 0⟩ := by
  have h := (C8_shr_amended
    ⟨(List.replicate 32 0).set 0 255, (List.replicate 501 0).set 500 2, [], 0⟩
    0 500 (by decide) (by decide) (by decide)).1
  rw [h]
  decide
